import Mathlib

/-!
Verification development for the waste-classification route
(`src/app/api/analyze-image/route.tsx`).

The route's behavior is embedded shallowly:

* `parseAIResponse` mirrors the normalizer at lines 197-236.  Its three
  JavaScript regular expressions are embedded as executable matchers with the
  exact ECMAScript semantics they exercise: leftmost match over start
  positions, greedy `:?` and `\s*` with backtracking, lazy `(.*?)`, the `i`
  flag via per-character lowercasing, and the `s` flag (dot-all) only on the
  `EXPLANATION` pattern.
* `stripDataUri` mirrors the duplicated data-URI-stripping block of
  `processWithGroq` (lines 100-109) and `processWithGemini` (lines 152-161);
  `groqImageUrl` and `geminiImagePart` mirror the shaped payload each adapter
  hands to its SDK (lines 112 and 164-169).
* `POST` mirrors the handler's control flow (lines 27-87): falsy-image 400
  guard, provider selection `body.model || VISION_MODEL`, the GROQ/else
  branch, the catch-all 500, and the color mapping.  The outbound network
  call is abstracted as an oracle `invoke`, and the list of providers invoked
  is returned alongside the response so that call-count properties are
  statable.

Strings are modeled as `List Char`.  Character case folding uses
`Char.toLower`, which agrees with JavaScript on the ASCII range that both the
patterns and the keyword scan use.
-/

/-! ## Basic string machinery -/

/-- The set of characters matched by ECMAScript `\s` (WhiteSpace and
LineTerminator); this is also the set removed by `String.prototype.trim`. -/
def wsChars : List Char :=
  [' ', '\t', '\n', '\u000B', '\u000C', '\r', ' ', ' ',
   ' ', ' ', ' ', ' ', ' ', ' ', ' ',
   ' ', ' ', ' ', ' ', ' ', ' ', ' ',
   ' ', '　', '﻿']

/-- ECMAScript whitespace predicate (`\s`, also `trim`). -/
def jsWs (c : Char) : Bool := wsChars.any (fun w => w = c)

/-- ECMAScript line terminators, which `.` does not match without the `s`
flag. -/
def isLineTerm (c : Char) : Bool :=
  c = '\n' || c = '\r' || c = ' ' || c = ' '

/-- JavaScript `String.prototype.trim`: drop `jsWs` characters from both
ends. -/
def jsTrim (s : List Char) : List Char :=
  ((s.dropWhile jsWs).reverse.dropWhile jsWs).reverse

/-- Does `hay` start with `needle` (character-exact)?  Mirrors
`String.prototype.startsWith` for a literal argument. -/
def startsWithSeq : List Char → List Char → Bool
  | [], _ => true
  | _ :: _, [] => false
  | n :: ns, h :: hs => n = h && startsWithSeq ns hs

/-- Does `hay` contain `needle` as a contiguous run?  Mirrors
`String.prototype.includes` for a literal argument. -/
def containsSeq (needle : List Char) : List Char → Bool
  | [] => needle.isEmpty
  | h :: t => startsWithSeq needle (h :: t) || containsSeq needle t

/-- Suffix relation on character lists (used to track regex scan
positions). -/
def SuffixOf (l₁ l₂ : List Char) : Prop := ∃ t, t ++ l₁ = l₂

/-! ## Regex building blocks

The three patterns of `parseAIResponse` are

* `/\[ITEM:?\s*(.*?)\]/i`
* `/\[CATEGORY:?\s*(recycle|compost|trash)\]/i`
* `/\[EXPLANATION:?\s*(.*?)\](?:\s|$)/is`

Each is embedded as a matcher that attempts the pattern at the head of a
suffix, returning the first capture group, and a scanner (`scanFind`) that
tries every start position left to right, exactly as `String.prototype.match`
does for a non-global regex. -/

/-- Try alternatives in order; first success wins (regex alternation and
backtracking order). -/
def firstSome (f : α → Option β) : List α → Option β
  | [] => none
  | a :: as =>
    match f a with
    | some b => some b
    | none => firstSome f as

/-- Case-insensitive literal match at the head of `s` (the `i` flag
canonicalizes; on ASCII letters that is lowercasing).  Returns the rest of
the input on success. -/
def ciMatchStart : List Char → List Char → Option (List Char)
  | [], s => some s
  | _ :: _, [] => none
  | p :: ps, c :: cs =>
    if c.toLower = p.toLower then ciMatchStart ps cs else none

/-- Case-insensitive literal match at the head of `s`, additionally
returning the characters of the input that were matched (the capture text a
group around the literal would record). -/
def ciMatchStartCap : List Char → List Char → Option (List Char × List Char)
  | [], s => some ([], s)
  | _ :: _, [] => none
  | p :: ps, c :: cs =>
    if c.toLower = p.toLower then
      match ciMatchStartCap ps cs with
      | some (cap, rest) => some (c :: cap, rest)
      | none => none
    else none

/-- Continuations for greedy `:?`: consume a colon if present, falling back
to consuming nothing. -/
def colonCands : List Char → List (List Char)
  | [] => [[]]
  | c :: s => if c = ':' then [s, c :: s] else [c :: s]

/-- Continuations for greedy `\s*`: every suffix obtained by consuming a
run of whitespace, longest consumption first. -/
def wsSuffixes : List Char → List (List Char)
  | [] => [[]]
  | c :: cs => if jsWs c then wsSuffixes cs ++ [c :: cs] else [c :: cs]

/-- Lazy `(.*?)\]` without the `s` flag: the shortest run of
non-line-terminator characters followed by `]`.  Returns the capture. -/
def lazyItemCap : List Char → Option (List Char)
  | [] => none
  | c :: cs =>
    if c = ']' then some []
    else if isLineTerm c then none
    else
      match lazyItemCap cs with
      | some cap => some (c :: cap)
      | none => none

/-- Is the next position a `\s` character or the end of input
(`(?:\s|$)`)? -/
def wsOrEnd : List Char → Bool
  | [] => true
  | c :: _ => jsWs c

/-- Lazy `(.*?)\](?:\s|$)` with the `s` flag: the shortest run of arbitrary
characters followed by `]` whose successor is whitespace or the end.
Returns the capture. -/
def lazyExplCap : List Char → Option (List Char)
  | [] => none
  | c :: cs =>
    if c = ']' && wsOrEnd cs then some []
    else
      match lazyExplCap cs with
      | some cap => some (c :: cap)
      | none => none

/-- Attempt `/\[ITEM:?\s*(.*?)\]/i` at the head of `s`. -/
def matchItemAt : List Char → Option (List Char)
  | [] => none
  | c :: s1 =>
    if c = '[' then
      match ciMatchStart "ITEM".data s1 with
      | some s2 => firstSome (fun s3 => firstSome lazyItemCap (wsSuffixes s3)) (colonCands s2)
      | none => none
    else none

/-- One alternative of the category alternation: a case-insensitive word
followed by `]`.  Returns the capture (the matched input characters). -/
def catWordAt (s4 w : List Char) : Option (List Char) :=
  match ciMatchStartCap w s4 with
  | some (cap, rest) =>
    match rest with
    | [] => none
    | c :: _ => if c = ']' then some cap else none
  | none => none

/-- The alternation `(recycle|compost|trash)\]`, tried in source order. -/
def catAlt (s4 : List Char) : Option (List Char) :=
  firstSome (catWordAt s4) ["recycle".data, "compost".data, "trash".data]

/-- Attempt `/\[CATEGORY:?\s*(recycle|compost|trash)\]/i` at the head of
`s`. -/
def matchCategoryAt : List Char → Option (List Char)
  | [] => none
  | c :: s1 =>
    if c = '[' then
      match ciMatchStart "CATEGORY".data s1 with
      | some s2 => firstSome (fun s3 => firstSome catAlt (wsSuffixes s3)) (colonCands s2)
      | none => none
    else none

/-- Attempt `/\[EXPLANATION:?\s*(.*?)\](?:\s|$)/is` at the head of `s`. -/
def matchExplAt : List Char → Option (List Char)
  | [] => none
  | c :: s1 =>
    if c = '[' then
      match ciMatchStart "EXPLANATION".data s1 with
      | some s2 => firstSome (fun s3 => firstSome lazyExplCap (wsSuffixes s3)) (colonCands s2)
      | none => none
    else none

/-- Leftmost-match scan: try the matcher at every start position, left to
right (the search of `String.prototype.match`). -/
def scanFind (m : List Char → Option (List Char)) : List Char → Option (List Char)
  | [] => m []
  | c :: cs =>
    match m (c :: cs) with
    | some cap => some cap
    | none => scanFind m cs

/-- First capture of `response.match(/\[ITEM:?\s*(.*?)\]/i)`. -/
def findItem (r : List Char) : Option (List Char) := scanFind matchItemAt r

/-- First capture of
`response.match(/\[CATEGORY:?\s*(recycle|compost|trash)\]/i)`. -/
def findCategory (r : List Char) : Option (List Char) := scanFind matchCategoryAt r

/-- First capture of
`response.match(/\[EXPLANATION:?\s*(.*?)\](?:\s|$)/is)`. -/
def findExpl (r : List Char) : Option (List Char) := scanFind matchExplAt r

/-! ## The normalizer -/

/-- The three disposal categories. -/
inductive Category
  | recycle
  | compost
  | trash
deriving DecidableEq

/-- The `StructuredResponse` record of the route. -/
structure StructuredResponse where
  item : List Char
  category : Category
  explanation : List Char
  color : List Char
deriving DecidableEq

/-- Defaults initialized at the top of `parseAIResponse` (lines 199-204). -/
def defaultStructured : StructuredResponse where
  item := "Unidentified item".data
  category := Category.trash
  explanation := "Unable to determine proper disposal method.".data
  color := "bg-slate-600".data

/-- The unchecked cast `category as 'recycle' | 'compost' | 'trash'` applied
to the lowercased capture; the alternation guarantees the argument is one of
the three words, so the final branch is unreachable. -/
def wordToCategory (w : List Char) : Category :=
  if w = "recycle".data then Category.recycle
  else if w = "compost".data then Category.compost
  else Category.trash

/-- Lines 207-210: overwrite `item` when the `ITEM` capture is truthy
(non-empty). -/
def applyItem (d : StructuredResponse) (r : List Char) : StructuredResponse :=
  match findItem r with
  | some cap => if cap.isEmpty then d else { d with item := jsTrim cap }
  | none => d

/-- Lines 213-217: overwrite `category` when the `CATEGORY` capture is
truthy. -/
def applyCategory (d : StructuredResponse) (r : List Char) : StructuredResponse :=
  match findCategory r with
  | some cap =>
    if cap.isEmpty then d
    else { d with category := wordToCategory (cap.map Char.toLower) }
  | none => d

/-- Lines 224-232: the fallback path.  The whole trimmed response becomes the
explanation and the category is re-derived by the case-insensitive keyword
scan, `recycle` before `compost`. -/
def fallback (d : StructuredResponse) (r : List Char) : StructuredResponse :=
  if containsSeq "recycle".data (r.map Char.toLower) then
    { d with explanation := jsTrim r, category := Category.recycle }
  else if containsSeq "compost".data (r.map Char.toLower) then
    { d with explanation := jsTrim r, category := Category.compost }
  else { d with explanation := jsTrim r }

/-- Lines 220-233: overwrite `explanation` when the `EXPLANATION` capture is
truthy, otherwise run the fallback path. -/
def applyExplanation (d : StructuredResponse) (r : List Char) : StructuredResponse :=
  match findExpl r with
  | some cap => if cap.isEmpty then fallback d r else { d with explanation := jsTrim cap }
  | none => fallback d r

/-- The normalizer `parseAIResponse` (lines 197-236). -/
def parseAIResponse (r : List Char) : StructuredResponse :=
  applyExplanation (applyCategory (applyItem defaultStructured r) r) r

/-- Truthiness of `explanationMatch && explanationMatch[1]`: the
`EXPLANATION` regex matched with a non-empty capture. -/
def explFound (r : List Char) : Bool :=
  match findExpl r with
  | some cap => !cap.isEmpty
  | none => false

/-- The category contributed by the bracketed `CATEGORY` field alone (the
default `trash` when the field is absent); the keyword fallback plays no part
in this definition. -/
def fieldCategory (r : List Char) : Category :=
  match findCategory r with
  | some cap => wordToCategory (cap.map Char.toLower)
  | none => Category.trash

/-! ## Image shaping in the provider adapters -/

/-- JavaScript `s.split(',')` on a character list. -/
def splitOnComma : List Char → List (List Char)
  | [] => [[]]
  | c :: cs =>
    if c = ',' then [] :: splitOnComma cs
    else
      match splitOnComma cs with
      | [] => [[c]]
      | p :: ps => (c :: p) :: ps

/-- Case-sensitive literal match at the head of the input, returning the
rest (used by the anchored, flag-free regex below). -/
def dropStart : List Char → List Char → Option (List Char)
  | [], s => some s
  | _ :: _, [] => none
  | p :: ps, c :: cs => if c = p then dropStart ps cs else none

/-- The anchored regex `/^data:[^;]+;base64,(.+)$/` of the adapters' second
branch: `data:`, a non-empty run of non-semicolons, the literal `;base64,`,
then a non-empty capture that `.` (no `s` flag) and the end anchor force to
be line-terminator-free and to reach the end of the input. -/
def dataUriPayload (s : List Char) : Option (List Char) :=
  match dropStart "data:".data s with
  | some r =>
    let mime := r.takeWhile (fun c => c ≠ ';')
    let rest := r.dropWhile (fun c => c ≠ ';')
    if mime.isEmpty then none
    else
      match dropStart ";base64,".data rest with
      | some payload =>
        if payload.isEmpty then none
        else if payload.all (fun c => !isLineTerm c) then some payload else none
      | none => none
  | none => none

/-- The data-URI-stripping block duplicated in `processWithGroq`
(lines 100-109) and `processWithGemini` (lines 152-161): if the input
contains a comma, keep `split(',')[1]`; otherwise, if it starts with
`data:`, try the anchored regex; otherwise pass the input through. -/
def stripDataUri (base64Image : List Char) : List Char :=
  if base64Image.any (fun c => c = ',') then
    (splitOnComma base64Image).getD 1 []
  else if startsWithSeq "data:".data base64Image then
    match dataUriPayload base64Image with
    | some m => m
    | none => base64Image
  else base64Image

/-- The `image_url.url` value `processWithGroq` hands to the Groq SDK
(line 112): a reconstructed JPEG data URI around the stripped payload. -/
def groqImageUrl (base64Image : List Char) : List Char :=
  "data:image/jpeg;base64,".data ++ stripDataUri base64Image

/-- The `inlineData` object `processWithGemini` hands to the Gemini SDK
(lines 164-169). -/
structure GeminiImagePart where
  data : List Char
  mimeType : List Char
deriving DecidableEq

/-- Construction of the Gemini `inlineData` part: the bare stripped payload
plus a constant mime type. -/
def geminiImagePart (base64Image : List Char) : GeminiImagePart where
  data := stripDataUri base64Image
  mimeType := "image/jpeg".data

/-! ## The request handler -/

/-- The two backends reachable from the handler. -/
inductive Provider
  | GROQ
  | GEMINI
deriving DecidableEq

/-- The process-wide default provider constant (line 7). -/
def VISION_MODEL : List Char := "GROQ".data

/-- The parsed JSON body of the inbound request.  `image = none` models an
absent field; `some []` models an empty string.  `model` is the raw string
the caller sent, unconstrained at runtime. -/
structure AnalyzeImageRequest where
  image : Option (List Char)
  model : Option (List Char)

/-- Truthiness test of `!body.image` (line 32): missing or empty. -/
def falsyImage (body : AnalyzeImageRequest) : Bool :=
  match body.image with
  | none => true
  | some s => s.isEmpty

/-- Line 40, `body.model || VISION_MODEL`: a falsy (absent or empty) model
field falls back to the constant. -/
def selectedModel (body : AnalyzeImageRequest) : List Char :=
  match body.model with
  | none => VISION_MODEL
  | some m => if m.isEmpty then VISION_MODEL else m

/-- Lines 56-60: the `modelToUse === 'GROQ'` test routes to Groq, and every
other value—supported or not—routes to Gemini. -/
def selectedProvider (body : AnalyzeImageRequest) : Provider :=
  if selectedModel body = "GROQ".data then Provider.GROQ else Provider.GEMINI

/-- Line 66-71: the color derived from the final category. -/
def colorOf : Category → List Char
  | Category.recycle => "bg-emerald-500".data
  | Category.compost => "bg-amber-700".data
  | Category.trash => "bg-slate-600".data

/-- The handler's outcome: a 200 JSON body with the full classification
record (lines 73-79), or an error body with its HTTP status (lines 33-36 and
82-85). -/
inductive PostResponse
  | ok (item : List Char) (category : Category) (explanation : List Char)
      (color : List Char) (model : List Char)
  | err (status : Nat) (error : List Char) (message : Option (List Char))
deriving DecidableEq

/-- The `POST` handler (lines 27-87).  The outbound provider call is the
oracle `invoke` (an exception thrown by the adapter is `Except.error` with
the error's message); the second component records, in order, the providers
actually invoked, so absence-of-call properties are statable.  The constant
prompt of lines 46-51 is elided from the oracle's arguments. -/
def POST (invoke : Provider → List Char → Except (List Char) (List Char))
    (body : AnalyzeImageRequest) : PostResponse × List Provider :=
  if falsyImage body then
    (PostResponse.err 400 "No image data provided".data none, [])
  else
    match invoke (selectedProvider body) (body.image.getD []) with
    | Except.error e =>
      (PostResponse.err 500 "Failed to analyze image".data (some e), [selectedProvider body])
    | Except.ok aiResponse =>
      let structured := parseAIResponse aiResponse
      (PostResponse.ok structured.item structured.category structured.explanation
        (colorOf structured.category) (selectedModel body), [selectedProvider body])

/-! ## Lemmas about the regex machinery -/

theorem firstSome_mem {α β : Type} {f : α → Option β} {l : List α} {b : β}
    (h : firstSome f l = some b) : ∃ a ∈ l, f a = some b := by
  induction l with
  | nil => exact absurd h (by simp [firstSome])
  | cons a as ih =>
    rw [firstSome] at h
    cases hfa : f a with
    | some b0 =>
      rw [hfa] at h
      cases h
      exact ⟨a, by simp, hfa⟩
    | none =>
      rw [hfa] at h
      obtain ⟨a1, ha1, hfa1⟩ := ih h
      exact ⟨a1, by simp [ha1], hfa1⟩

theorem suffixOf_trans {a b c : List Char} (h1 : SuffixOf a b) (h2 : SuffixOf b c) :
    SuffixOf a c := by
  obtain ⟨t1, ht1⟩ := h1
  obtain ⟨t2, ht2⟩ := h2
  exact ⟨t2 ++ t1, by rw [List.append_assoc, ht1, ht2]⟩

theorem ciMatchStart_suffix {w s rest : List Char}
    (h : ciMatchStart w s = some rest) : SuffixOf rest s := by
  induction w generalizing s with
  | nil =>
    rw [ciMatchStart] at h
    cases h
    exact ⟨[], rfl⟩
  | cons p ps ih =>
    cases s with
    | nil => exact absurd h (by simp [ciMatchStart])
    | cons c cs =>
      rw [ciMatchStart] at h
      by_cases hc : c.toLower = p.toLower
      · rw [if_pos hc] at h
        obtain ⟨t, ht⟩ := ih h
        exact ⟨c :: t, by rw [List.cons_append, ht]⟩
      · rw [if_neg hc] at h
        cases h

theorem ciMatchStartCap_spec {w s cap rest : List Char}
    (h : ciMatchStartCap w s = some (cap, rest)) :
    cap ++ rest = s ∧ cap.map Char.toLower = w.map Char.toLower := by
  induction w generalizing s cap with
  | nil =>
    rw [ciMatchStartCap] at h
    cases h
    exact ⟨rfl, rfl⟩
  | cons p ps ih =>
    cases s with
    | nil => exact absurd h (by simp [ciMatchStartCap])
    | cons c cs =>
      rw [ciMatchStartCap] at h
      by_cases hc : c.toLower = p.toLower
      · rw [if_pos hc] at h
        cases hm : ciMatchStartCap ps cs with
        | none => rw [hm] at h; cases h
        | some pr =>
          obtain ⟨cap0, rest0⟩ := pr
          rw [hm] at h
          cases h
          obtain ⟨he, hl⟩ := ih hm
          refine ⟨by rw [List.cons_append, he], ?_⟩
          rw [List.map_cons, List.map_cons, hl, hc]
      · rw [if_neg hc] at h
        cases h

theorem wsSuffixes_suffix {s t : List Char} (h : t ∈ wsSuffixes s) : SuffixOf t s := by
  induction s with
  | nil =>
    rw [wsSuffixes] at h
    rw [List.mem_singleton] at h
    subst h
    exact ⟨[], rfl⟩
  | cons c cs ih =>
    rw [wsSuffixes] at h
    by_cases hw : jsWs c
    · rw [if_pos hw] at h
      rcases List.mem_append.mp h with h1 | h2
      · obtain ⟨t1, ht1⟩ := ih h1
        exact ⟨c :: t1, by rw [List.cons_append, ht1]⟩
      · rw [List.mem_singleton] at h2
        subst h2
        exact ⟨[], rfl⟩
    · rw [if_neg hw] at h
      rw [List.mem_singleton] at h
      subst h
      exact ⟨[], rfl⟩

theorem colonCands_suffix {s t : List Char} (h : t ∈ colonCands s) : SuffixOf t s := by
  cases s with
  | nil =>
    rw [colonCands] at h
    rw [List.mem_singleton] at h
    subst h
    exact ⟨[], rfl⟩
  | cons c cs =>
    rw [colonCands] at h
    by_cases hc : c = ':'
    · rw [if_pos hc] at h
      rcases List.mem_cons.mp h with h1 | h2
      · subst h1
        exact ⟨[c], rfl⟩
      · rw [List.mem_singleton] at h2
        subst h2
        exact ⟨[], rfl⟩
    · rw [if_neg hc] at h
      rw [List.mem_singleton] at h
      subst h
      exact ⟨[], rfl⟩

theorem scanFind_spec {m : List Char → Option (List Char)} {r cap : List Char}
    (h : scanFind m r = some cap) : ∃ t, SuffixOf t r ∧ m t = some cap := by
  induction r with
  | nil => exact ⟨[], ⟨[], rfl⟩, h⟩
  | cons c cs ih =>
    rw [scanFind] at h
    cases hm : m (c :: cs) with
    | some cap0 =>
      rw [hm] at h
      cases h
      exact ⟨c :: cs, ⟨[], rfl⟩, hm⟩
    | none =>
      rw [hm] at h
      obtain ⟨t, ⟨t2, ht2⟩, hmt⟩ := ih h
      exact ⟨t, ⟨c :: t2, by rw [List.cons_append, ht2]⟩, hmt⟩

theorem catWordAt_spec {s4 w cap : List Char} (h : catWordAt s4 w = some cap) :
    (∃ rest, cap ++ rest = s4) ∧ cap.map Char.toLower = w.map Char.toLower := by
  cases hm : ciMatchStartCap w s4 with
  | none => simp [catWordAt, hm] at h
  | some pr =>
    obtain ⟨cap0, rest0⟩ := pr
    cases rest0 with
    | nil => simp [catWordAt, hm] at h
    | cons c rs =>
      by_cases hc : c = ']'
      · simp only [catWordAt, hm, if_pos hc, Option.some.injEq] at h
        subst h
        obtain ⟨he, hl⟩ := ciMatchStartCap_spec hm
        exact ⟨⟨c :: rs, he⟩, hl⟩
      · simp [catWordAt, hm, hc] at h

theorem catAlt_spec {s4 cap : List Char} (h : catAlt s4 = some cap) :
    (∃ rest, cap ++ rest = s4) ∧
      (cap.map Char.toLower = "recycle".data ∨ cap.map Char.toLower = "compost".data ∨
        cap.map Char.toLower = "trash".data) := by
  obtain ⟨w, hw, hcw⟩ := firstSome_mem h
  obtain ⟨hre, hl⟩ := catWordAt_spec hcw
  refine ⟨hre, ?_⟩
  rcases List.mem_cons.mp hw with rfl | hw2
  · exact Or.inl (by rw [hl]; decide)
  rcases List.mem_cons.mp hw2 with rfl | hw3
  · exact Or.inr (Or.inl (by rw [hl]; decide))
  rw [List.mem_singleton] at hw3
  subst hw3
  exact Or.inr (Or.inr (by rw [hl]; decide))

theorem matchCategoryAt_spec {s cap : List Char} (h : matchCategoryAt s = some cap) :
    (∃ a b, a ++ (cap ++ b) = s) ∧
      (cap.map Char.toLower = "recycle".data ∨ cap.map Char.toLower = "compost".data ∨
        cap.map Char.toLower = "trash".data) := by
  cases s with
  | nil => exact absurd h (by rw [matchCategoryAt]; simp)
  | cons c s1 =>
    rw [matchCategoryAt] at h
    by_cases hc : c = '['
    · rw [if_pos hc] at h
      cases hm : ciMatchStart "CATEGORY".data s1 with
      | none => rw [hm] at h; cases h
      | some s2 =>
        rw [hm] at h
        obtain ⟨s3, hs3, h3⟩ := firstSome_mem h
        obtain ⟨s4, hs4, h4⟩ := firstSome_mem h3
        obtain ⟨⟨rest, hrest⟩, hword⟩ := catAlt_spec h4
        have suf4 : SuffixOf s4 s1 :=
          suffixOf_trans (suffixOf_trans (wsSuffixes_suffix hs4) (colonCands_suffix hs3))
            (ciMatchStart_suffix hm)
        obtain ⟨t, ht⟩ := suf4
        refine ⟨⟨c :: t, rest, ?_⟩, hword⟩
        rw [hrest, List.cons_append, ht]
    · rw [if_neg hc] at h
      cases h

theorem findCategory_spec {r cap : List Char} (h : findCategory r = some cap) :
    (∃ a b, a ++ (cap ++ b) = r) ∧
      (cap.map Char.toLower = "recycle".data ∨ cap.map Char.toLower = "compost".data ∨
        cap.map Char.toLower = "trash".data) := by
  obtain ⟨t, ⟨t2, ht2⟩, hmt⟩ := scanFind_spec h
  obtain ⟨⟨a, b, hab⟩, hword⟩ := matchCategoryAt_spec hmt
  exact ⟨⟨t2 ++ a, b, by rw [List.append_assoc, hab, ht2]⟩, hword⟩

theorem findCategory_nonempty {r cap : List Char} (h : findCategory r = some cap) :
    cap ≠ [] := by
  intro hnil
  subst hnil
  rcases (findCategory_spec h).2 with hw | hw | hw <;> exact absurd hw (by decide)

/-! ## Lemmas about `containsSeq` -/

theorem startsWithSeq_self_append (n b : List Char) : startsWithSeq n (n ++ b) = true := by
  induction n with
  | nil => rfl
  | cons x xs ih => simp [startsWithSeq, ih]

theorem startsWithSeq_nil_elim {n : List Char} (h : startsWithSeq n [] = true) : n = [] := by
  cases n with
  | nil => rfl
  | cons x xs => exact absurd h (by simp [startsWithSeq])

theorem containsSeq_of_startsWith {n hay : List Char} (h : startsWithSeq n hay = true) :
    containsSeq n hay = true := by
  cases hay with
  | nil =>
    rw [containsSeq, startsWithSeq_nil_elim h]
    rfl
  | cons c t =>
    rw [containsSeq, h]
    rfl

theorem containsSeq_append_self (a n b : List Char) :
    containsSeq n (a ++ (n ++ b)) = true := by
  induction a with
  | nil => exact containsSeq_of_startsWith (startsWithSeq_self_append n b)
  | cons c a0 ih =>
    rw [List.cons_append, containsSeq, ih]
    simp

theorem findCategory_contains {r cap : List Char} (h : findCategory r = some cap) :
    containsSeq (cap.map Char.toLower) (r.map Char.toLower) = true := by
  obtain ⟨⟨a, b, hab⟩, _⟩ := findCategory_spec h
  have hmap : (a ++ (cap ++ b)).map Char.toLower = r.map Char.toLower := by rw [hab]
  rw [List.map_append, List.map_append] at hmap
  rw [← hmap]
  exact containsSeq_append_self (a.map Char.toLower) (cap.map Char.toLower) (b.map Char.toLower)

/-! ## Lemmas about the normalizer steps -/

theorem applyItem_category (d : StructuredResponse) (r : List Char) :
    (applyItem d r).category = d.category := by
  rw [applyItem]
  cases findItem r with
  | none => rfl
  | some cap =>
    split
    all_goals first
    | rfl
    | (split <;> rfl)

theorem applyItem_explanation (d : StructuredResponse) (r : List Char) :
    (applyItem d r).explanation = d.explanation := by
  rw [applyItem]
  cases findItem r with
  | none => rfl
  | some cap =>
    split
    all_goals first
    | rfl
    | (split <;> rfl)

theorem applyItem_color (d : StructuredResponse) (r : List Char) :
    (applyItem d r).color = d.color := by
  rw [applyItem]
  cases findItem r with
  | none => rfl
  | some cap =>
    split
    all_goals first
    | rfl
    | (split <;> rfl)

theorem applyCategory_item (d : StructuredResponse) (r : List Char) :
    (applyCategory d r).item = d.item := by
  rw [applyCategory]
  cases findCategory r with
  | none => rfl
  | some cap =>
    split
    all_goals first
    | rfl
    | (split <;> rfl)

theorem applyCategory_explanation (d : StructuredResponse) (r : List Char) :
    (applyCategory d r).explanation = d.explanation := by
  rw [applyCategory]
  cases findCategory r with
  | none => rfl
  | some cap =>
    split
    all_goals first
    | rfl
    | (split <;> rfl)

theorem applyCategory_color (d : StructuredResponse) (r : List Char) :
    (applyCategory d r).color = d.color := by
  rw [applyCategory]
  cases findCategory r with
  | none => rfl
  | some cap =>
    split
    all_goals first
    | rfl
    | (split <;> rfl)

theorem fallback_item (d : StructuredResponse) (r : List Char) :
    (fallback d r).item = d.item := by
  rw [fallback]
  split_ifs <;> rfl

theorem fallback_color (d : StructuredResponse) (r : List Char) :
    (fallback d r).color = d.color := by
  rw [fallback]
  split_ifs <;> rfl

theorem fallback_explanation (d : StructuredResponse) (r : List Char) :
    (fallback d r).explanation = jsTrim r := by
  rw [fallback]
  split_ifs <;> rfl

theorem fallback_category (d : StructuredResponse) (r : List Char) :
    (fallback d r).category =
      (if containsSeq "recycle".data (r.map Char.toLower) then Category.recycle
       else if containsSeq "compost".data (r.map Char.toLower) then Category.compost
       else d.category) := by
  rw [fallback]
  split_ifs <;> rfl

theorem applyCategory_fieldCategory {d : StructuredResponse} (r : List Char)
    (hd : d.category = Category.trash) :
    (applyCategory d r).category = fieldCategory r := by
  rw [applyCategory, fieldCategory]
  cases hfc : findCategory r with
  | none => exact hd
  | some cap =>
    have hne : cap.isEmpty = false := by
      cases hcap : cap with
      | nil => exact absurd (hcap ▸ hfc) (fun hx => findCategory_nonempty hx rfl)
      | cons x xs => rfl
    simp [hne]

theorem fieldCategory_trash_of_no_keywords {r : List Char}
    (h1 : containsSeq "recycle".data (r.map Char.toLower) = false)
    (h2 : containsSeq "compost".data (r.map Char.toLower) = false) :
    fieldCategory r = Category.trash := by
  cases hfc : findCategory r with
  | none => simp [fieldCategory, hfc]
  | some cap =>
    rcases (findCategory_spec hfc).2 with hw | hw | hw
    · have := findCategory_contains hfc
      rw [hw, h1] at this
      cases this
    · have := findCategory_contains hfc
      rw [hw, h2] at this
      cases this
    · simp only [fieldCategory, hfc]
      rw [hw]
      decide

theorem parse_expl_some {r cap : List Char} (h : findExpl r = some cap) (hne : cap ≠ []) :
    parseAIResponse r =
      { applyCategory (applyItem defaultStructured r) r with explanation := jsTrim cap } := by
  have hne2 : cap.isEmpty = false := by
    cases cap with
    | nil => exact absurd rfl hne
    | cons x xs => rfl
  rw [parseAIResponse, applyExplanation, h]
  simp [hne2]

theorem parse_fallback {r : List Char} (h : explFound r = false) :
    parseAIResponse r = fallback (applyCategory (applyItem defaultStructured r) r) r := by
  rw [parseAIResponse, applyExplanation]
  cases hfe : findExpl r with
  | none => rfl
  | some cap =>
    rw [explFound, hfe] at h
    rw [Bool.not_eq_false'] at h
    simp [h]

/-! ## Whitespace-only inputs -/

theorem jsWs_toLower {c : Char} (h : jsWs c = true) : Char.toLower c = c := by
  rw [jsWs, List.any_eq_true] at h
  obtain ⟨w, hw, hwc⟩ := h
  rw [decide_eq_true_eq] at hwc
  subst hwc
  fin_cases hw <;> decide

theorem matchItemAt_cons_ne {c : Char} (cs : List Char) (h : ¬ c = '[') :
    matchItemAt (c :: cs) = none := by
  rw [matchItemAt, if_neg h]

theorem matchCategoryAt_cons_ne {c : Char} (cs : List Char) (h : ¬ c = '[') :
    matchCategoryAt (c :: cs) = none := by
  rw [matchCategoryAt, if_neg h]

theorem matchExplAt_cons_ne {c : Char} (cs : List Char) (h : ¬ c = '[') :
    matchExplAt (c :: cs) = none := by
  rw [matchExplAt, if_neg h]

theorem scanFind_none_of_no_bracket {m : List Char → Option (List Char)}
    (hnil : m [] = none)
    (hcons : ∀ c cs, ¬ c = '[' → m (c :: cs) = none)
    {r : List Char} (hr : ∀ c ∈ r, ¬ c = '[') :
    scanFind m r = none := by
  induction r with
  | nil => exact hnil
  | cons c cs ih =>
    rw [scanFind, hcons c cs (hr c (by simp))]
    exact ih (fun x hx => hr x (by simp [hx]))

theorem containsSeq_mem_head {x : Char} {xs hay : List Char}
    (h : containsSeq (x :: xs) hay = true) : x ∈ hay := by
  induction hay with
  | nil => exact absurd h (by rw [containsSeq]; simp [List.isEmpty])
  | cons c t ih =>
    rw [containsSeq, Bool.or_eq_true] at h
    rcases h with h1 | h2
    · rw [startsWithSeq, Bool.and_eq_true, decide_eq_true_eq] at h1
      rw [h1.1]
      exact List.mem_cons_self c t
    · exact List.mem_cons_of_mem c (ih h2)

theorem no_keyword_of_all_ws {r : List Char} (h : r.all jsWs = true) {x : Char}
    (xs : List Char) (hx : jsWs x = false) :
    containsSeq (x :: xs) (r.map Char.toLower) = false := by
  cases hcs : containsSeq (x :: xs) (r.map Char.toLower) with
  | false => rfl
  | true =>
    exfalso
    obtain ⟨c, hc, hcl⟩ := List.mem_map.mp (containsSeq_mem_head hcs)
    have hws : jsWs c = true := List.all_eq_true.mp h c hc
    rw [jsWs_toLower hws] at hcl
    subst hcl
    rw [hws] at hx
    cases hx

theorem jsTrim_all_ws {r : List Char} (h : r.all jsWs = true) : jsTrim r = [] := by
  rw [jsTrim]
  have hd : r.dropWhile jsWs = [] := by
    rw [List.dropWhile_eq_nil_iff]
    intro x hx
    exact List.all_eq_true.mp h x hx
  rw [hd]
  rfl

theorem parse_all_ws {r : List Char} (h : r.all jsWs = true) :
    parseAIResponse r =
      { item := "Unidentified item".data, category := Category.trash,
        explanation := [], color := "bg-slate-600".data } := by
  have hnb : ∀ c ∈ r, ¬ c = '[' := by
    intro c hc hceq
    have hws := List.all_eq_true.mp h c hc
    subst hceq
    exact absurd hws (by decide)
  have hitem : findItem r = none :=
    scanFind_none_of_no_bracket rfl (fun c cs hcne => matchItemAt_cons_ne cs hcne) hnb
  have hcat : findCategory r = none :=
    scanFind_none_of_no_bracket rfl (fun c cs hcne => matchCategoryAt_cons_ne cs hcne) hnb
  have hexp : findExpl r = none :=
    scanFind_none_of_no_bracket rfl (fun c cs hcne => matchExplAt_cons_ne cs hcne) hnb
  have hef : explFound r = false := by rw [explFound, hexp]
  rw [parse_fallback hef]
  rw [applyItem, hitem, applyCategory, hcat]
  rw [fallback]
  rw [no_keyword_of_all_ws h _ (by decide), no_keyword_of_all_ws h _ (by decide)]
  simp [jsTrim_all_ws h, defaultStructured]

theorem applyExplanation_item (d : StructuredResponse) (r : List Char) :
    (applyExplanation d r).item = d.item := by
  rw [applyExplanation]
  cases findExpl r with
  | none => exact fallback_item d r
  | some cap =>
    by_cases hc : cap.isEmpty = true
    · simp [hc, fallback_item]
    · simp [hc]

theorem applyExplanation_color (d : StructuredResponse) (r : List Char) :
    (applyExplanation d r).color = d.color := by
  rw [applyExplanation]
  cases findExpl r with
  | none => exact fallback_color d r
  | some cap =>
    by_cases hc : cap.isEmpty = true
    · simp [hc, fallback_color]
    · simp [hc]

/-! ## Lemmas about `splitOnComma` -/

theorem splitOnComma_no_comma {s : List Char} (h : ∀ c ∈ s, ¬ c = ',') :
    splitOnComma s = [s] := by
  induction s with
  | nil => rfl
  | cons c cs ih =>
    have hc : ¬ c = ',' := h c (by simp)
    have ih2 := ih (fun x hx => h x (by simp [hx]))
    rw [splitOnComma, if_neg hc, ih2]

theorem splitOnComma_append {xs : List Char} (ys : List Char) (h : ∀ c ∈ xs, ¬ c = ',') :
    splitOnComma (xs ++ ',' :: ys) = xs :: splitOnComma ys := by
  induction xs with
  | nil =>
    rw [List.nil_append, splitOnComma, if_pos rfl]
  | cons c cs ih =>
    have hc : ¬ c = ',' := h c (by simp)
    have ih2 := ih (fun x hx => h x (by simp [hx]))
    rw [List.cons_append, splitOnComma, if_neg hc, ih2]

/-! ## The claims -/

/-- C1: whenever the normalizer finds no bracketed `EXPLANATION` field (no
match, or an empty capture, which the truthiness test treats as not found),
the output explanation is the entire trimmed input and the category is
re-derived by the case-insensitive substring search that checks `recycle`
first and then `compost`, first match wins, and is `trash` when neither
substring occurs — even when a valid bracketed `CATEGORY` field is present,
since a matched category word always occurs as a substring of the lowercased
response. -/
theorem C1_fallback_explanation_category (r : List Char)
    (h : explFound r = false) :
    (parseAIResponse r).explanation = jsTrim r ∧
    (parseAIResponse r).category =
      (if containsSeq "recycle".data (r.map Char.toLower) then Category.recycle
       else if containsSeq "compost".data (r.map Char.toLower) then Category.compost
       else Category.trash) := by
  rw [parse_fallback h]
  refine ⟨fallback_explanation _ _, ?_⟩
  rw [fallback_category]
  by_cases h1 : containsSeq "recycle".data (r.map Char.toLower) = true
  · rw [if_pos h1, if_pos h1]
  · rw [if_neg h1, if_neg h1]
    by_cases h2 : containsSeq "compost".data (r.map Char.toLower) = true
    · rw [if_pos h2, if_pos h2]
    · rw [if_neg h2, if_neg h2]
      rw [Bool.not_eq_true] at h1 h2
      rw [applyCategory_fieldCategory r (by rw [applyItem_category]; rfl)]
      exact fieldCategory_trash_of_no_keywords h1 h2

/-- Witness for C1 at a concrete response with no bracketed fields. -/
theorem C1_witness :
    explFound "Take it to recycling, you can recycle the bottle.".data = false ∧
    ((parseAIResponse "Take it to recycling, you can recycle the bottle.".data).explanation =
        jsTrim "Take it to recycling, you can recycle the bottle.".data ∧
      (parseAIResponse "Take it to recycling, you can recycle the bottle.".data).category =
        (if containsSeq "recycle".data
            ("Take it to recycling, you can recycle the bottle.".data.map Char.toLower) then
          Category.recycle
         else if containsSeq "compost".data
            ("Take it to recycling, you can recycle the bottle.".data.map Char.toLower) then
          Category.compost
         else Category.trash)) :=
  ⟨by decide, C1_fallback_explanation_category _ (by decide)⟩

/-- C2: for a well-formed response — one whose bracketed `EXPLANATION` field
is found with a non-empty capture, so the fallback is skipped — in which the
`CATEGORY` regex matches with capture `cap` (when the response contains
exactly one valid `[CATEGORY: X]` token, the leftmost match is that token and
`cap` is `X`), the output category is the lowercased capture read as a
category. -/
theorem C2_category_field_wins (r cap : List Char)
    (h1 : findCategory r = some cap) (h2 : explFound r = true) :
    (parseAIResponse r).category = wordToCategory (cap.map Char.toLower) := by
  rw [explFound] at h2
  cases hfe : findExpl r with
  | none => rw [hfe] at h2; cases h2
  | some cape =>
    rw [hfe] at h2
    have hne : cape ≠ [] := by
      intro hnil
      subst hnil
      cases h2
    have hcat : (parseAIResponse r).category =
        (applyCategory (applyItem defaultStructured r) r).category := by
      rw [parse_expl_some hfe hne]
    rw [hcat, applyCategory_fieldCategory r (by rw [applyItem_category]; rfl)]
    simp [fieldCategory, h1]

/-- Witness for C2 at the specification's well-formed example response. -/
theorem C2_witness :
    (parseAIResponse
        "[ITEM: plastic bottle]\n[CATEGORY: recycle]\n[EXPLANATION: Made of PET plastic.]".data).category =
      wordToCategory ("recycle".data.map Char.toLower) :=
  C2_category_field_wins _ "recycle".data (by decide) (by decide)

/-- C3: when the bracketed `EXPLANATION` field is found with a non-empty
capture, the fallback keyword scan does not run: the explanation is the
trimmed capture and the category is exactly `fieldCategory` — the value the
bracketed `CATEGORY` field alone determines (default `trash`) — regardless of
any `recycle` or `compost` substrings elsewhere in the response. -/
theorem C3_no_fallback_when_explanation (r cap : List Char)
    (h : findExpl r = some cap) (hne : cap ≠ []) :
    (parseAIResponse r).explanation = jsTrim cap ∧
    (parseAIResponse r).category = fieldCategory r := by
  constructor
  · rw [parse_expl_some h hne]
  · have hcat : (parseAIResponse r).category =
        (applyCategory (applyItem defaultStructured r) r).category := by
      rw [parse_expl_some h hne]
    rw [hcat, applyCategory_fieldCategory r (by rw [applyItem_category]; rfl)]

/-- Witness for C3 at a response whose body also contains the word
`recycle`; the category still comes from the bracketed field only. -/
theorem C3_witness :
    (parseAIResponse "[CATEGORY: compost][EXPLANATION: organic] or recycle it".data).explanation =
      jsTrim "organic".data ∧
    (parseAIResponse "[CATEGORY: compost][EXPLANATION: organic] or recycle it".data).category =
      fieldCategory "[CATEGORY: compost][EXPLANATION: organic] or recycle it".data :=
  C3_no_fallback_when_explanation _ "organic".data (by decide) (by decide)

/-- C4 counterexample: with the explicit unsupported provider choice
`TOGETHER` the handler does not fail fast with any configuration error — it
silently routes the request to the Gemini adapter, performs the outbound
call, and returns a 200 result echoing the unsupported choice. -/
theorem C4_counterexample :
    POST (fun _ _ => Except.ok "ok: you can recycle this".data)
        { image := some "QUJD".data, model := some "TOGETHER".data } =
      (PostResponse.ok "Unidentified item".data Category.recycle
          "ok: you can recycle this".data "bg-emerald-500".data "TOGETHER".data,
        [Provider.GEMINI]) := by
  decide

/-- C4 (amended): an explicit provider choice other than `GROQ` — including
every unsupported value — is silently routed to the Gemini adapter and an
outbound call to it is made; no configuration error is produced. -/
theorem C4_unknown_choice_routes_to_gemini
    (invoke : Provider → List Char → Except (List Char) (List Char))
    (body : AnalyzeImageRequest) (m : List Char)
    (h1 : falsyImage body = false) (h2 : body.model = some m)
    (h3 : ¬ m = "GROQ".data) (h4 : ¬ m = []) :
    selectedProvider body = Provider.GEMINI ∧
    (POST invoke body).2 = [Provider.GEMINI] := by
  have hsel : selectedModel body = m := by
    have hne : m.isEmpty = false := by
      cases m with
      | nil => exact absurd rfl h4
      | cons x xs => rfl
    rw [selectedModel, h2]
    simp [hne]
  have hprov : selectedProvider body = Provider.GEMINI := by
    rw [selectedProvider, hsel, if_neg h3]
  refine ⟨hprov, ?_⟩
  rw [POST]
  simp only [h1, Bool.false_eq_true, if_false]
  cases invoke (selectedProvider body) (body.image.getD []) with
  | error e => simp [hprov]
  | ok a => simp [hprov]

/-- Witness for the amended C4 at a concrete unsupported choice. -/
theorem C4_witness :
    selectedProvider { image := some "QUJD".data, model := some "TOGETHER".data } =
      Provider.GEMINI ∧
    (POST (fun _ _ => Except.ok [])
        { image := some "QUJD".data, model := some "TOGETHER".data }).2 =
      [Provider.GEMINI] :=
  C4_unknown_choice_routes_to_gemini _ _ "TOGETHER".data (by decide) rfl (by decide) (by decide)

/-- C5: a request body with no `image` field is answered 400 with the body
`{ error: "No image data provided" }` and no provider is invoked, whatever
the oracle and the `model` field are. -/
theorem C5_missing_image_400
    (invoke : Provider → List Char → Except (List Char) (List Char))
    (m : Option (List Char)) :
    POST invoke { image := none, model := m } =
      (PostResponse.err 400 "No image data provided".data none, []) := rfl

/-- C6: every failure of the provider invocation is caught at the handler
boundary and becomes a 500 response carrying the human-readable message, and
the handler never yields a partial result — each request produces either a
full 200 classification record or an error body. -/
theorem C6_errors_caught_uniform
    (invoke : Provider → List Char → Except (List Char) (List Char))
    (body : AnalyzeImageRequest) :
    (∀ msg, falsyImage body = false →
      invoke (selectedProvider body) (body.image.getD []) = Except.error msg →
      POST invoke body =
        (PostResponse.err 500 "Failed to analyze image".data (some msg),
          [selectedProvider body])) ∧
    ((∃ it c ex col m, (POST invoke body).1 = PostResponse.ok it c ex col m) ∨
      (∃ st e msg, (POST invoke body).1 = PostResponse.err st e msg)) := by
  constructor
  · intro msg h1 h2
    rw [POST]
    simp [h1, h2]
  · cases hp : (POST invoke body).1 with
    | ok it c ex col m => exact Or.inl ⟨it, c, ex, col, m, rfl⟩
    | err st e msg => exact Or.inr ⟨st, e, msg, rfl⟩

/-- Witness for C6: a throwing provider call at a concrete request becomes
the 500 response with the thrown message. -/
theorem C6_witness :
    POST (fun _ _ => Except.error "boom".data) { image := some "QUJD".data, model := none } =
      (PostResponse.err 500 "Failed to analyze image".data (some "boom".data),
        [Provider.GROQ]) :=
  (C6_errors_caught_uniform (fun _ _ => Except.error "boom".data)
    { image := some "QUJD".data, model := none }).1 "boom".data (by decide) rfl

/-- C7 counterexample: for the empty-but-present `EXPLANATION` field the
default explanation is NOT kept — the empty capture routes the normalizer to
the fallback, which replaces the explanation with the whole trimmed
response. -/
theorem C7_counterexample :
    findExpl "[EXPLANATION: ]".data = some [] ∧
    (parseAIResponse "[EXPLANATION: ]".data).explanation = "[EXPLANATION: ]".data ∧
    ¬ (parseAIResponse "[EXPLANATION: ]".data).explanation =
        defaultStructured.explanation := by
  refine ⟨by decide, by decide, by decide⟩

/-- C7 (amended): an empty-but-present bracketed `ITEM` or `EXPLANATION`
field (zero-width capture) is treated exactly as not found: an empty `ITEM`
capture keeps the default item, while an empty `EXPLANATION` capture routes
to the fallback, whose explanation is the whole trimmed response rather than
the initializer default; in particular the concrete response
`[ITEM: ][CATEGORY: trash][EXPLANATION: Not recyclable.]` keeps the item
`Unidentified item`. -/
theorem C7_empty_capture_not_found (r : List Char) :
    (findItem r = some [] → (parseAIResponse r).item = "Unidentified item".data) ∧
    (findExpl r = some [] → (parseAIResponse r).explanation = jsTrim r) ∧
    (parseAIResponse "[ITEM: ][CATEGORY: trash][EXPLANATION: Not recyclable.]".data).item =
      "Unidentified item".data := by
  refine ⟨?_, ?_, by decide⟩
  · intro h
    rw [parseAIResponse, applyExplanation_item, applyCategory_item]
    rw [applyItem, h]
    simp [defaultStructured]
  · intro h
    have hef : explFound r = false := by rw [explFound, h]; rfl
    rw [parse_fallback hef, fallback_explanation]

/-- Witness for the amended C7 at a response with empty `ITEM` and
`EXPLANATION` fields. -/
theorem C7_witness :
    (parseAIResponse "[ITEM: ][EXPLANATION: ]".data).item = "Unidentified item".data ∧
    (parseAIResponse "[ITEM: ][EXPLANATION: ]".data).explanation =
      jsTrim "[ITEM: ][EXPLANATION: ]".data :=
  ⟨(C7_empty_capture_not_found "[ITEM: ][EXPLANATION: ]".data).1 (by decide),
   (C7_empty_capture_not_found "[ITEM: ][EXPLANATION: ]".data).2.1 (by decide)⟩

/-- C8: both adapters strip a `data:<mime>;base64,<payload>` prefix down to
the bare payload (assuming, as base64 guarantees, that neither the mime type
nor the payload contains a comma); the Gemini adapter, which needs raw
base64, hands over exactly the bare payload, while the Groq adapter, which
needs a full data URI, reconstructs a `data:image/jpeg;base64,` prefix
around it; an input without any prefix is passed through as the bare
payload. -/
theorem C8_data_uri_shaping :
    (∀ mime payload : List Char,
      (∀ c ∈ mime, ¬ c = ',') → (∀ c ∈ payload, ¬ c = ',') →
      stripDataUri ("data:".data ++ mime ++ (";base64,".data ++ payload)) = payload ∧
      groqImageUrl ("data:".data ++ mime ++ (";base64,".data ++ payload)) =
        "data:image/jpeg;base64,".data ++ payload ∧
      (geminiImagePart ("data:".data ++ mime ++ (";base64,".data ++ payload))).data =
        payload) ∧
    (∀ s : List Char, s.any (fun c => c = ',') = false →
      startsWithSeq "data:".data s = false →
      stripDataUri s = s ∧
      groqImageUrl s = "data:image/jpeg;base64,".data ++ s ∧
      (geminiImagePart s).data = s) := by
  constructor
  · intro mime payload hmime hpayload
    have hb : (";base64,".data : List Char) = ";base64".data ++ [','] := by decide
    have hsplit : "data:".data ++ mime ++ (";base64,".data ++ payload) =
        ("data:".data ++ (mime ++ ";base64".data)) ++ (',' :: payload) := by
      rw [hb]
      simp [List.append_assoc]
    have hxs : ∀ c ∈ "data:".data ++ (mime ++ ";base64".data), ¬ c = ',' := by
      intro c hc
      have hd : ∀ x ∈ ("data:".data : List Char), ¬ x = ',' := by decide
      have hb64 : ∀ x ∈ (";base64".data : List Char), ¬ x = ',' := by decide
      rcases List.mem_append.mp hc with h1 | h12
      · exact hd c h1
      rcases List.mem_append.mp h12 with h2 | h3
      · exact hmime c h2
      · exact hb64 c h3
    have hany : ("data:".data ++ mime ++ (";base64,".data ++ payload)).any
        (fun c => c = ',') = true := by
      rw [List.any_eq_true]
      refine ⟨',', ?_, by simp⟩
      rw [hsplit]
      exact List.mem_append.mpr (Or.inr (List.mem_cons_self _ _))
    have hstrip : stripDataUri ("data:".data ++ mime ++ (";base64,".data ++ payload)) =
        payload := by
      rw [stripDataUri, if_pos hany, hsplit, splitOnComma_append payload hxs,
        splitOnComma_no_comma hpayload]
      rfl
    exact ⟨hstrip, by rw [groqImageUrl, hstrip], hstrip⟩
  · intro s h1 h2
    have hstrip : stripDataUri s = s := by
      rw [stripDataUri, if_neg (by simp [h1]), if_neg (by simp [h2])]
    exact ⟨hstrip, by rw [groqImageUrl, hstrip], hstrip⟩

/-- Witness for C8 at a concrete prefixed input and a concrete bare
input. -/
theorem C8_witness :
    (stripDataUri ("data:".data ++ "image/png".data ++ (";base64,".data ++ "QUJD".data)) =
        "QUJD".data ∧
      groqImageUrl ("data:".data ++ "image/png".data ++ (";base64,".data ++ "QUJD".data)) =
        "data:image/jpeg;base64,".data ++ "QUJD".data ∧
      (geminiImagePart
          ("data:".data ++ "image/png".data ++ (";base64,".data ++ "QUJD".data))).data =
        "QUJD".data) ∧
    (stripDataUri "QUJD".data = "QUJD".data ∧
      groqImageUrl "QUJD".data = "data:image/jpeg;base64,".data ++ "QUJD".data ∧
      (geminiImagePart "QUJD".data).data = "QUJD".data) :=
  ⟨C8_data_uri_shaping.1 "image/png".data "QUJD".data (by decide) (by decide),
   C8_data_uri_shaping.2 "QUJD".data (by decide) (by decide)⟩

/-- C9 counterexample: for the raw response that spells out the initializer
default, the output explanation IS the initializer default value (reached
through the fallback, which copies the whole trimmed response), refuting the
claim that the output explanation is never that value. -/
theorem C9_counterexample :
    findExpl "Unable to determine proper disposal method.".data = none ∧
    (parseAIResponse "Unable to determine proper disposal method.".data).explanation =
      defaultStructured.explanation := by
  refine ⟨by decide, by decide⟩

/-- C9 (amended): the output explanation always equals either the trimmed
capture of a found non-empty `EXPLANATION` field or the entire trimmed raw
response — the initializer default never survives on its own, though the
output may coincide with it when the input itself carries that text; and an
all-whitespace (in particular empty) raw response yields the empty
explanation with the default item and category `trash`. -/
theorem C9_explanation_provenance (r : List Char) :
    ((∃ cap, findExpl r = some cap ∧ cap ≠ [] ∧
        (parseAIResponse r).explanation = jsTrim cap) ∨
      (parseAIResponse r).explanation = jsTrim r) ∧
    (r.all jsWs = true →
      parseAIResponse r =
        { item := "Unidentified item".data, category := Category.trash,
          explanation := [], color := "bg-slate-600".data }) := by
  constructor
  · cases hfe : findExpl r with
    | none =>
      right
      have hef : explFound r = false := by rw [explFound, hfe]
      rw [parse_fallback hef, fallback_explanation]
    | some cap =>
      by_cases hne : cap = []
      · right
        subst hne
        have hef : explFound r = false := by rw [explFound, hfe]; rfl
        rw [parse_fallback hef, fallback_explanation]
      · left
        exact ⟨cap, rfl, hne, by rw [parse_expl_some hfe hne]⟩
  · exact fun h => parse_all_ws h

/-- Witness for the amended C9 at a whitespace-only response. -/
theorem C9_witness :
    parseAIResponse " \n\t ".data =
      { item := "Unidentified item".data, category := Category.trash,
        explanation := [], color := "bg-slate-600".data } :=
  (C9_explanation_provenance " \n\t ".data).2 (by decide)

/-- C10: a request whose `image` field is present but the empty string is
treated exactly like a missing image: 400 with
`{ error: "No image data provided" }` and no provider invoked. -/
theorem C10_empty_image_400
    (invoke : Provider → List Char → Except (List Char) (List Char))
    (m : Option (List Char)) :
    POST invoke { image := some [], model := m } =
      (PostResponse.err 400 "No image data provided".data none, []) := rfl
